import Mathlib

/-!
Verification of the content-normalization pipeline of the `power-ppt`
repository against its specification.

Python strings are embedded as `List Char` (`PyStr`), so that every
operation of the source (strip, split, join, length) is an executable
Lean function the kernel can evaluate on concrete inputs.  The files
embedded here are `paginator.py`, `pptx_reader.py`, `app.py`
(`analyze_and_preview` / `generate_and_download` content logic),
`ocr_backend.py` (`ocr_image`), and `template_filler.py`.
-/

namespace PowerPpt

/-- Python string, embedded character by character. -/
abbrev PyStr := List Char

/-- Whitespace recognized by Python's `str.strip()` for ASCII text:
space, tab, newline, carriage return, vertical tab, form feed. -/
def isSpace (c : Char) : Bool :=
  c = ' ' || c = '\t' || c = '\n' || c = '\r' || c = '\x0b' || c = '\x0c'

/-- Python `s.strip()`: drop whitespace from both ends. -/
def strip (l : PyStr) : PyStr :=
  (l.dropWhile isSpace).rdropWhile isSpace

/-- The blank-line paragraph delimiter, Python's `"\n\n"`. -/
def nn : PyStr := ['\n', '\n']

/-- Helper for `splitOnNN`: prepend a character to the first piece. -/
def consHead (c : Char) : List PyStr → List PyStr
  | [] => [[c]]
  | h :: t => (c :: h) :: t

/-- Python `s.split("\n\n")`: split on non-overlapping leftmost
occurrences of the two-character delimiter. -/
def splitOnNN : PyStr → List PyStr
  | [] => [[]]
  | [c] => [[c]]
  | c1 :: c2 :: rest =>
    if c1 = '\n' ∧ c2 = '\n' then [] :: splitOnNN rest
    else consHead c1 (splitOnNN (c2 :: rest))

/-- Whether the two-character blank-line delimiter occurs in the string. -/
def hasNN : PyStr → Bool
  | [] => false
  | [_] => false
  | c1 :: c2 :: rest =>
    if c1 = '\n' ∧ c2 = '\n' then true else hasNN (c2 :: rest)

/-- The paragraph list of a body, exactly as `paginator.py` line 12
computes it: split on the blank-line delimiter, strip each piece, keep
the non-blank pieces. -/
def parags (s : PyStr) : List PyStr :=
  ((splitOnNN s).map strip).filter (fun p => p ≠ [])

/-- A well-formed paragraph as produced by `parags`: non-empty, already
stripped, and containing no blank-line delimiter. -/
def good (p : PyStr) : Prop := p ≠ [] ∧ strip p = p ∧ hasNN p = false

/-- Python's `"\n\n".join(parts)`. -/
def joinNN : List PyStr → PyStr
  | [] => []
  | p :: rest =>
    match rest with
    | [] => p
    | _ :: _ => p ++ nn ++ joinNN rest

/-- One iteration of the greedy accumulation loop of
`split_by_paragraphs` (paginator.py lines 15-23): the accumulator is
the pair (pages so far, current page text). -/
def sbpStep (budget : Nat) (acc : List PyStr × PyStr) (p : PyStr) :
    List PyStr × PyStr :=
  if acc.2 ≠ [] ∧ acc.2.length + p.length + 2 > budget then
    (acc.1 ++ [strip acc.2], p)
  else
    (acc.1, if acc.2 ≠ [] then acc.2 ++ nn ++ p else p)

/-- paginator.py `split_by_paragraphs(text, chars_per_page)`: split the
body into stripped non-blank paragraphs on the blank-line delimiter and
greedily accumulate them into pages. -/
def split_by_paragraphs (text : PyStr) (chars_per_page : Nat) : List PyStr :=
  if text = [] then [[]]
  else
    let acc := (parags text).foldl (sbpStep chars_per_page) ([], [])
    let pages := if strip acc.2 ≠ [] then acc.1 ++ [strip acc.2] else acc.1
    if pages = [] then [[]] else pages

/-- A rendered output page of the pipeline: the title and body text
attached to one output slide (app.py `pages` entries). -/
structure Page where
  title : PyStr
  body : PyStr
deriving DecidableEq, Repr

/-- app.py `generate_and_download` lines 302-306: paginate the body
with the character-budget heuristic, then give page 0 the unmodified
title and every later page the title followed by a space and the
continuation suffix. -/
def build_pages (title body : PyStr) (budget : Nat)
    (continuation_style : PyStr) : List Page :=
  (split_by_paragraphs body budget).enum.map fun pr =>
    { title := if pr.1 = 0 then title else title ++ [' '] ++ continuation_style,
      body := pr.2 }

/-- First paragraph of the claim C3 scenario: 800 characters. -/
def c3p1 : PyStr := List.replicate 800 'a'

/-- Second paragraph of the claim C3 scenario: 800 characters. -/
def c3p2 : PyStr := List.replicate 800 'b'

/-- Third paragraph of the claim C3 scenario: 696 characters, so that
the whole body (with the two blank-line separators) is 2300 characters. -/
def c3p3 : PyStr := List.replicate 696 'c'

/-- The claim C3 scenario body: three paragraphs joined by blank lines. -/
def c3body : PyStr := joinNN [c3p1, c3p2, c3p3]

/-- Python `s.split(sep)` for a single-character separator, keeping
empty pieces (used for `r.split(" ")` in the paginator). -/
def splitOnChar (sep : Char) : PyStr → List PyStr
  | [] => [[]]
  | c :: rest =>
    if c = sep then [] :: splitOnChar sep rest
    else consHead c (splitOnChar sep rest)

/-- Python's `"\n".join(parts)`. -/
def joinNl : List PyStr → PyStr
  | [] => []
  | p :: rest =>
    match rest with
    | [] => p
    | _ :: _ => p ++ ['\n'] ++ joinNl rest

/-- Inner refinement loop of paginator.py `_measure_text_lines` (lines
42-56): split a rough line into space-separated words and greedily
re-wrap them while the measured width stays within the box width.
`measure` models `font.getsize(...)[0]` of the PIL font, an external
collaborator. -/
def refine_wrap (measure : PyStr → Nat) (max_width_px : Nat) (r : PyStr) :
    List PyStr :=
  let acc := (splitOnChar ' ' r).foldl
    (fun acc w =>
      if acc.2 = [] then (acc.1, w)
      else
        let test := acc.2 ++ [' '] ++ w
        if measure test ≤ max_width_px then (acc.1, test)
        else (acc.1 ++ [acc.2], w))
    (([] : List PyStr), ([] : PyStr))
  if acc.2 ≠ [] then acc.1 ++ [acc.2] else acc.1

/-- paginator.py `_measure_text_lines`: wrap each non-blank paragraph
into measured lines, appending one empty line as paragraph separator.
`roughWrap` models `textwrap.TextWrapper(width=200).wrap`, a Python
standard-library collaborator. -/
def measure_text_lines (text : PyStr) (roughWrap : PyStr → List PyStr)
    (measure : PyStr → Nat) (max_width_px : Nat) : List PyStr :=
  (splitOnNN text).flatMap fun para =>
    if strip para = [] then []
    else ((roughWrap para).flatMap (refine_wrap measure max_width_px)) ++ [[]]

/-- Page-filling loop of paginator.py `split_by_font_metrics` (lines
87-110): accumulate lines while the running height fits in the box;
the accumulator is (pages, current lines, current height). -/
def fill_pages_by_height (line_height box_height_px : Nat)
    (lines : List PyStr) : List PyStr :=
  let acc := lines.foldl
    (fun acc line =>
      let needed := line_height
      let closed :=
        if acc.2.2 + needed > box_height_px ∧ acc.2.1 ≠ [] then
          (acc.1 ++ [strip (joinNl acc.2.1)], ([] : List PyStr), (0 : Nat))
        else acc
      (closed.1, closed.2.1 ++ [line], closed.2.2 + needed))
    (([] : List PyStr), ([] : List PyStr), (0 : Nat))
  let pages := if acc.2.1 ≠ [] then acc.1 ++ [strip (joinNl acc.2.1)] else acc.1
  if pages = [] then [[]] else pages

/-- paginator.py `split_by_font_metrics`: precise pagination using the
font's glyph metrics; with an unknown box width or height it falls
back to `split_by_paragraphs` with the default budget of 1100.
`measure`, `ascent` and `descent` model the PIL font loaded from the
supplied font bytes (`ImageFont.truetype`), an external collaborator. -/
def split_by_font_metrics (text : PyStr) (measure : PyStr → Nat)
    (roughWrap : PyStr → List PyStr) (ascent descent : Nat)
    (box_width_px box_height_px : Option Nat) : List PyStr :=
  if text = [] then [[]]
  else
    match box_width_px, box_height_px with
    | some w, some h =>
      fill_pages_by_height (ascent + descent + 2) h
        (measure_text_lines text roughWrap measure w)
    | _, _ => split_by_paragraphs text 1100

/-- app.py `analyze_and_preview` lines 198-200: OCR text is merged
into the body only when the body is empty or shorter than 20
characters and the aggregated OCR text is non-empty; otherwise the
body is left unchanged (OCR output discarded). -/
def merge_ocr_into_body (body ocr_text : PyStr) : PyStr :=
  if (body = [] ∨ body.length < 20) ∧ ocr_text ≠ [] then
    if body ≠ [] then strip (body ++ nn ++ ocr_text) else ocr_text
  else body

/-- Result of one OCR invocation: the recognized text and its lines
(ocr_backend.py returns a dict with keys text and lines). -/
structure OcrResult where
  text : PyStr
  lines : List PyStr
deriving DecidableEq, Repr

/-- Which concrete OCR engine was invoked. -/
inductive OcrCall
  | google
  | tesseract
deriving DecidableEq, Repr

/-- ocr_backend.py `ocr_image` (lines 71-88), instrumented with the
ordered list of backend invocations: the `google` and `tess` arguments
are the outcomes the respective external engines produce for this
image (recognized result, or the exception they raise). -/
def ocr_image (google tess : Except PyStr OcrResult) (backend : PyStr) :
    Except PyStr OcrResult × List OcrCall :=
  if backend = String.data "google_vision" then
    match google with
    | .ok r => (.ok r, [.google])
    | .error e =>
      match tess with
      | .ok r => (.ok r, [.google, .tesseract])
      | .error _ => (.error e, [.google, .tesseract])
  else if backend = String.data "tesseract" then
    (tess, [.tesseract])
  else
    (.error (String.data "Unknown OCR backend: " ++ backend), [])

/-- Image payload of a picture shape (python-pptx `image.blob` bytes
and `image.content_type`); shapes whose image access raises are
modelled by `none` and skipped, as the try/except in the reader does. -/
structure PyImage where
  image_bytes : List Nat
  content_type : PyStr
deriving DecidableEq, Repr

/-- A slide shape as pptx_reader.extract_text_shapes probes it:
placeholder flag and placeholder_format.type, text frame flag and
text_frame.text, the MSO shape_type tag, and the optional image
payload. -/
structure Shape where
  is_placeholder : Bool
  ph_type : Nat
  has_text_frame : Bool
  text : PyStr
  shape_type : Nat
  image : Option PyImage
deriving DecidableEq, Repr

/-- A text shape stored by the extractor: the stripped text and the
shape_type tag (pptx_reader.py lines 57-60). -/
structure TextShape where
  text : PyStr
  shape_type : Nat
deriving DecidableEq, Repr

/-- The per-slide record produced by pptx_reader.extract_text_shapes. -/
structure SlideMeta where
  slide_index : Nat
  title_text : PyStr
  body_text : PyStr
  text_shapes : List TextShape
  image_shapes : List PyImage
deriving DecidableEq, Repr

/-- Running state of the shape loop of extract_text_shapes. -/
structure ExtractState where
  title_text : PyStr
  body_parts : List PyStr
  text_shapes : List TextShape
  image_shapes : List PyImage
deriving DecidableEq, Repr

/-- The reader's title-placeholder test (pptx_reader.py lines 43-46):
a placeholder of type PP_PLACEHOLDER.TITLE = 1 with a text frame. -/
def isTitlePh (sh : Shape) : Bool :=
  sh.is_placeholder && sh.ph_type == 1 && sh.has_text_frame

/-- One iteration of the shape loop of pptx_reader.extract_text_shapes
(lines 38-72): update the running title from a title placeholder;
collect every shape with a text frame and non-blank stripped text as a
text shape, excluding from body_parts only a text equal to the current
title; collect images of picture shapes (MSO_SHAPE_TYPE.PICTURE = 13). -/
def extract_shape_step (st : ExtractState) (sh : Shape) : ExtractState :=
  let tt := if isTitlePh sh then strip sh.text else st.title_text
  let txt := strip sh.text
  { title_text := tt,
    body_parts :=
      if sh.has_text_frame ∧ txt ≠ [] ∧ txt ≠ tt then st.body_parts ++ [txt]
      else st.body_parts,
    text_shapes :=
      if sh.has_text_frame ∧ txt ≠ [] then st.text_shapes ++ [⟨txt, sh.shape_type⟩]
      else st.text_shapes,
    image_shapes :=
      if sh.shape_type = 13 then
        match sh.image with
        | some im => st.image_shapes ++ [im]
        | none => st.image_shapes
      else st.image_shapes }

/-- The synthesized fallback title "Slide (index+1)" used by the
reader (pptx_reader.py line 75). -/
def slide_label (idx : Nat) : PyStr :=
  String.data "Slide " ++ String.data (Nat.repr (idx + 1))

/-- pptx_reader.extract_text_shapes for one slide: run the shape loop,
then fall back to the synthesized title when no title placeholder text
was found, and join the body parts with blank lines. -/
def extract_slide (idx : Nat) (shapes : List Shape) : SlideMeta :=
  let st := shapes.foldl extract_shape_step ⟨[], [], [], []⟩
  { slide_index := idx,
    title_text := if st.title_text ≠ [] then st.title_text else slide_label idx,
    body_text := if st.body_parts ≠ [] then joinNN st.body_parts else [],
    text_shapes := st.text_shapes,
    image_shapes := st.image_shapes }

/-- pptx_reader.extract_text_shapes over all slides in order. -/
def extract_text_shapes (slides : List (List Shape)) : List SlideMeta :=
  slides.enum.map fun pr => extract_slide pr.1 pr.2

/-- Python `s.splitlines()` for text whose line breaks are newline
characters: split on each newline, without a trailing empty line when
the text ends in a newline, and the empty list for empty text. -/
def splitlines (l : PyStr) : List PyStr :=
  if l = [] then []
  else
    let ps := splitOnChar '\n' l
    if l.getLast? = some '\n' then ps.dropLast else ps

/-- app.py `analyze_and_preview` lines 133-207 for one slide: resolve
the (title, body) pair from the extracted record, then merge the
aggregated OCR text. `ocr_text` is the blank-line join of the per-image
OCR results for this slide (empty when OCR is disabled, not needed, or
produced no text). -/
def analyze_slide (meta : SlideMeta) (ocr_text : PyStr) : PyStr × PyStr :=
  let tb :=
    if meta.title_text ≠ [] then (meta.title_text, ([] : PyStr))
    else
      match meta.text_shapes with
      | [] => (([] : PyStr), ([] : PyStr))
      | s :: _ =>
        let first_text := strip s.text
        let first_line :=
          if first_text ≠ [] then strip ((splitlines first_text).headD [])
          else []
        let title :=
          if first_line ≠ [] then first_line else slide_label meta.slide_index
        let remainder := strip (joinNl (splitlines first_text).tail)
        (title, if remainder ≠ [] then remainder else [])
  let title := tb.1
  let body0 := tb.2
  let body1 :=
    if meta.text_shapes ≠ [] then
      let body_parts := meta.text_shapes.foldl
        (fun acc s =>
          let txt := strip s.text
          if txt = [] then acc
          else if title ≠ [] ∧ txt = title then acc
          else acc ++ [txt]) []
      if body_parts ≠ [] then strip (joinNN body_parts) else body0
    else body0
  (title, merge_ocr_into_body body1 ocr_text)

/-- The last title-placeholder shape with a text frame, if any: its
stripped text is what the extractor's loop leaves in title_text. -/
def last_title_ph (shapes : List Shape) : Option Shape :=
  shapes.reverse.find? isTitlePh

/-- A plain multi-line text box (MSO_SHAPE_TYPE.TEXT_BOX = 17) on a
slide with no title placeholder: the input of claim C2. -/
def helloShape : Shape :=
  { is_placeholder := false, ph_type := 0, has_text_frame := true,
    text := String.data "Hello\nWorld", shape_type := 17, image := none }

/-- A footer placeholder (PP_PLACEHOLDER.FOOTER = 15, shape_type
msoPlaceholder = 14) carrying non-empty text: the input of claim C9. -/
def footerShape : Shape :=
  { is_placeholder := true, ph_type := 15, has_text_frame := true,
    text := String.data "Confidential", shape_type := 14, image := none }

/-- Placeholder kinds relevant to the filler (python-pptx
PP_PLACEHOLDER): title, centered title, body, generic content, or any
other placeholder kind. -/
inductive PhType
  | title
  | centerTitle
  | body
  | content
  | other
deriving DecidableEq, Repr

/-- A body paragraph as the filler renders it: its text and whether it
was emitted as a leveled bullet with the marker stripped. -/
structure RenderedPara where
  text : PyStr
  bulleted : Bool
deriving DecidableEq, Repr

/-- A shape on a rendered output slide: a filled title placeholder, a
filled body placeholder, an untouched placeholder, a fallback title or
body text box, or a table graphic frame (grid) with its cell texts.
The grid constructor is the shape a python-pptx `add_table` call would
put on the slide; the filler never creates one. -/
inductive RenderedShape
  | phTitle (text : PyStr)
  | phBody (paras : List RenderedPara)
  | phUntouched (t : PhType)
  | textboxTitle (text : PyStr)
  | textboxBody (paras : List RenderedPara)
  | grid (nRows nCols : Nat) (cells : List (List PyStr))
deriving DecidableEq, Repr

/-- template_filler.py body-paragraph rendering (lines 78-86 and
106-114): split the body on blank lines, strip, drop blanks; a
paragraph starting with a literal bullet marker "- " or "* " is
emitted with the marker stripped as a leveled paragraph. -/
def render_paras (body_text : PyStr) : List RenderedPara :=
  (parags body_text).map fun para =>
    if para.take 2 = ['-', ' '] ∨ para.take 2 = ['*', ' '] then
      ⟨strip (para.drop 2), true⟩
    else ⟨para, false⟩

/-- One placeholder of the new slide, as `_fill_placeholders` visits
it: fill the first title-type and the first body/content-type
placeholder, leave every other placeholder untouched. The accumulator
is (shapes so far, title_filled, body_filled). -/
def fill_ph_step (title_text body_text : PyStr)
    (acc : List RenderedShape × Bool × Bool) (t : PhType) :
    List RenderedShape × Bool × Bool :=
  match t with
  | PhType.title | PhType.centerTitle =>
    if acc.2.1 = false then
      (acc.1 ++ [RenderedShape.phTitle title_text], true, acc.2.2)
    else (acc.1 ++ [RenderedShape.phUntouched t], acc.2)
  | PhType.body | PhType.content =>
    if acc.2.2 = false then
      (acc.1 ++ [RenderedShape.phBody (render_paras body_text)], acc.2.1, true)
    else (acc.1 ++ [RenderedShape.phUntouched t], acc.2)
  | PhType.other => (acc.1 ++ [RenderedShape.phUntouched t], acc.2)

/-- template_filler.py `_fill_placeholders` (lines 55-114): fill the
layout-cloned placeholders, then append a fallback text box for the
title and for the body if no matching placeholder was filled. -/
def fill_placeholders_model (phs : List PhType)
    (title_text body_text : PyStr) : List RenderedShape :=
  let acc := phs.foldl (fill_ph_step title_text body_text)
    (([] : List RenderedShape), false, false)
  let withTitle :=
    if acc.2.1 = false then acc.1 ++ [RenderedShape.textboxTitle title_text]
    else acc.1
  if acc.2.2 = false then
    withTitle ++ [RenderedShape.textboxBody (render_paras body_text)]
  else withTitle

/-- template_filler.py `find_layout_index_with_title_and_body`: index
of the first layout exposing both a title-type and a body/content-type
placeholder, else 0. -/
def find_layout_index_with_title_and_body
    (layouts : List (List PhType)) : Nat :=
  match layouts.findIdx? (fun phs =>
    (phs.any fun t => t == PhType.title || t == PhType.centerTitle) &&
    (phs.any fun t => t == PhType.body || t == PhType.content)) with
  | some i => i
  | none => 0

/-- template_filler.py `fill_template_with_pages` (lines 117-148):
with a template, remove its slides, pick a layout with title and body
placeholders (fallback 0) and add one filled slide per page record;
with no template, use the default presentation's blank layout
(index 6, no placeholders), so both fallback text boxes are created.
The function consumes only the pages' titles and bodies: it accepts no
table records. -/
def fill_template_with_pages (template : Option (List (List PhType)))
    (pages : List Page) : List (List RenderedShape) :=
  match template with
  | some layouts =>
    let idx := find_layout_index_with_title_and_body layouts
    let phs := layouts.getD idx []
    pages.map fun p => fill_placeholders_model phs p.title p.body
  | none =>
    pages.map fun p => fill_placeholders_model [] p.title p.body

/-- Whether a rendered shape is a table graphic frame (grid). -/
def isGrid : RenderedShape → Bool
  | RenderedShape.grid .. => true
  | _ => false

-- Basic lemmas about the string model.

theorem splitOnNN_ne_nil (l : PyStr) : splitOnNN l ≠ [] := by
  match l with
  | [] => simp [splitOnNN]
  | [c] => simp [splitOnNN]
  | c1 :: c2 :: rest =>
    rw [splitOnNN]
    split
    · simp
    · cases h : splitOnNN (c2 :: rest) <;> simp [consHead]

theorem consHead_ne_nil (c : Char) (l : List PyStr) : consHead c l ≠ [] := by
  cases l <;> simp [consHead]

theorem consHead_append (c : Char) (l1 l2 : List PyStr) (h : l1 ≠ []) :
    consHead c (l1 ++ l2) = consHead c l1 ++ l2 := by
  cases l1 with
  | nil => exact absurd rfl h
  | cons a t => simp [consHead]

theorem splitOnNN_nn_cons (rest : PyStr) :
    splitOnNN ('\n' :: '\n' :: rest) = [] :: splitOnNN rest := by
  conv_lhs => rw [splitOnNN.eq_def]
  simp

theorem splitOnNN_cons_ne (c1 c2 : Char) (rest : PyStr)
    (h : ¬(c1 = '\n' ∧ c2 = '\n')) :
    splitOnNN (c1 :: c2 :: rest) = consHead c1 (splitOnNN (c2 :: rest)) := by
  conv_lhs => rw [splitOnNN.eq_def]
  simp [h]

theorem splitOnNN_of_hasNN_eq_false (l : PyStr) (h : hasNN l = false) :
    splitOnNN l = [l] := by
  match l with
  | [] => simp [splitOnNN]
  | [c] => simp [splitOnNN]
  | c1 :: c2 :: rest =>
    rw [hasNN] at h
    by_cases hc : c1 = '\n' ∧ c2 = '\n'
    · rw [if_pos hc] at h
      exact absurd h (by simp)
    · rw [if_neg hc] at h
      rw [splitOnNN_cons_ne c1 c2 rest hc,
        splitOnNN_of_hasNN_eq_false (c2 :: rest) h]
      simp [consHead]

/-- The leftmost-split recursion distributes over an occurrence of the
delimiter, provided the left part does not end in a newline (which
would shift the leftmost match). -/
theorem splitOnNN_append (b : PyStr) :
    ∀ (n : Nat) (a : PyStr), a.length ≤ n → a.getLast? ≠ some '\n' →
      splitOnNN (a ++ nn ++ b) = splitOnNN a ++ splitOnNN b := by
  intro n
  induction n with
  | zero =>
    intro a hlen _
    have ha : a = [] := List.eq_nil_of_length_eq_zero (Nat.le_zero.mp hlen)
    subst ha
    show splitOnNN ('\n' :: '\n' :: b) = [[]] ++ splitOnNN b
    rw [splitOnNN_nn_cons]
    simp
  | succ n ih =>
    intro a hlen hlast
    match a with
    | [] =>
      show splitOnNN ('\n' :: '\n' :: b) = [[]] ++ splitOnNN b
      rw [splitOnNN_nn_cons]
      simp
    | [c] =>
      have hc : c ≠ '\n' := by
        intro h; exact hlast (by simp [h])
      show splitOnNN (c :: '\n' :: ('\n' :: b)) = splitOnNN [c] ++ splitOnNN b
      rw [splitOnNN_cons_ne c '\n' ('\n' :: b) (by intro h; exact hc h.1)]
      rw [splitOnNN_nn_cons]
      show consHead c ([] :: splitOnNN b) = splitOnNN [c] ++ splitOnNN b
      simp [consHead, splitOnNN]
    | c1 :: c2 :: rest =>
      have hlast2 : (c2 :: rest).getLast? = (c1 :: c2 :: rest).getLast? := by
        simp [List.getLast?_cons_cons]
      by_cases hc : c1 = '\n' ∧ c2 = '\n'
      · have hrest_last : rest.getLast? ≠ some '\n' := by
          cases rest with
          | nil =>
            exfalso
            apply hlast
            rw [show (c1 :: c2 :: ([] : PyStr)) = [c1, c2] from rfl]
            simp [List.getLast?, hc.2]
          | cons y t =>
            rw [show (c1 :: c2 :: (y :: t)).getLast? = (y :: t).getLast? by
              simp [List.getLast?_cons_cons]] at hlast
            exact hlast
        obtain ⟨h1, h2⟩ := hc
        subst h1; subst h2
        show splitOnNN ('\n' :: '\n' :: (rest ++ nn ++ b)) = _
        rw [splitOnNN_nn_cons, splitOnNN_nn_cons]
        rw [ih rest (by simp at hlen; omega) hrest_last]
        simp
      · show splitOnNN (c1 :: c2 :: (rest ++ nn ++ b)) = _
        rw [splitOnNN_cons_ne c1 c2 _ hc]
        have step : splitOnNN ((c2 :: rest) ++ nn ++ b)
            = splitOnNN (c2 :: rest) ++ splitOnNN b := by
          apply ih (c2 :: rest) (by simp at hlen ⊢; omega)
          rw [hlast2]; exact hlast
        have harr : c2 :: (rest ++ nn ++ b) = (c2 :: rest) ++ nn ++ b := by simp
        rw [harr, step, consHead_append c1 _ _ (splitOnNN_ne_nil _)]
        rw [splitOnNN_cons_ne c1 c2 rest hc]

-- Lemmas about strip.

theorem strip_infix_self (l : PyStr) : strip l <:+: l := by
  have h1 : strip l <+: l.dropWhile isSpace := List.rdropWhile_prefix _ _
  have h2 : l.dropWhile isSpace <:+ l := List.dropWhile_suffix _
  exact h1.isInfix.trans h2.isInfix

theorem strip_eq_self_iff (l : PyStr) :
    strip l = l ↔ (l.dropWhile isSpace = l ∧ (l.rdropWhile isSpace = l)) := by
  constructor
  · intro h
    have hpre : strip l <+: l.dropWhile isSpace := List.rdropWhile_prefix _ _
    have hsuf : l.dropWhile isSpace <:+ l := List.dropWhile_suffix _
    have hlen1 : (strip l).length ≤ (l.dropWhile isSpace).length := hpre.length_le
    have hlen2 : (l.dropWhile isSpace).length ≤ l.length := hsuf.length_le
    rw [h] at hlen1
    have hdlen : (l.dropWhile isSpace).length = l.length := Nat.le_antisymm hlen2 hlen1
    have hdrop : l.dropWhile isSpace = l := hsuf.eq_of_length hdlen
    refine ⟨hdrop, ?_⟩
    have := h
    rw [strip, hdrop] at this
    exact this
  · intro ⟨h1, h2⟩
    rw [strip, h1, h2]

theorem strip_head_not_space (l : PyStr) (c : Char) (h : (strip l).head? = some c) :
    isSpace c = false := by
  have hpre : strip l <+: l.dropWhile isSpace := List.rdropWhile_prefix _ _
  obtain ⟨t, ht⟩ := hpre
  have hne : strip l ≠ [] := by
    intro he; rw [he] at h; simp at h
  have hd : (l.dropWhile isSpace).head? = some c := by
    rw [← ht]
    cases hs : strip l with
    | nil => exact absurd hs hne
    | cons a r =>
      rw [hs] at h
      simp at h
      simp [h]
  have h2 := List.head?_dropWhile_not isSpace l
  rw [hd] at h2
  exact h2

theorem strip_getLast_not_space (l : PyStr) (c : Char)
    (h : (strip l).getLast? = some c) : isSpace c = false := by
  have hne : strip l ≠ [] := by
    intro he; rw [he] at h; simp at h
  have h2 := List.rdropWhile_last_not isSpace (l.dropWhile isSpace) hne
  have h3 : (strip l).getLast hne = c := by
    have h4 := @List.getLast?_eq_getLast_of_ne_nil _ (strip l) hne
    rw [h4] at h
    exact Option.some.inj h
  have h5 : (List.rdropWhile isSpace (l.dropWhile isSpace)).getLast hne = c := h3
  rw [h5] at h2
  simpa using h2

theorem strip_eq_self_of (l : PyStr)
    (hh : ∀ c, l.head? = some c → isSpace c = false)
    (hl : ∀ c, l.getLast? = some c → isSpace c = false) : strip l = l := by
  rw [strip_eq_self_iff]
  constructor
  · cases l with
    | nil => simp
    | cons a t =>
      rw [List.dropWhile_cons, if_neg]
      simp
      exact hh a rfl
  · rw [List.rdropWhile_eq_self_iff]
    intro hne
    have := hl (l.getLast hne) (List.getLast?_eq_getLast l hne ▸ rfl)
    simp [this]

theorem strip_idem (l : PyStr) : strip (strip l) = strip l := by
  apply strip_eq_self_of
  · exact strip_head_not_space l
  · exact strip_getLast_not_space l

-- Lemmas about hasNN.

theorem hasNN_eq_true_iff (l : PyStr) : hasNN l = true ↔ nn <:+: l := by
  match l with
  | [] =>
    simp [hasNN, nn]
  | [c] =>
    simp [hasNN, nn]
    intro h
    have := h.length_le
    simp at this
  | c1 :: c2 :: rest =>
    rw [hasNN]
    by_cases hc : c1 = '\n' ∧ c2 = '\n'
    · rw [if_pos hc]
      simp only [true_iff]
      obtain ⟨h1, h2⟩ := hc
      subst h1; subst h2
      exact ⟨[], rest, rfl⟩
    · rw [if_neg hc, hasNN_eq_true_iff (c2 :: rest)]
      constructor
      · intro h
        exact List.infix_cons h
      · intro h
        rw [List.infix_cons_iff] at h
        cases h with
        | inl h =>
          exfalso
          rw [show nn = '\n' :: ['\n'] from rfl, List.cons_prefix_cons] at h
          obtain ⟨he1, he2⟩ := h
          rw [List.cons_prefix_cons] at he2
          exact hc ⟨he1.symm, he2.1.symm⟩
        | inr h => exact h

theorem hasNN_false_mono (l' l : PyStr) (hinf : l' <:+: l) (h : hasNN l = false) :
    hasNN l' = false := by
  by_contra hne
  rw [Bool.not_eq_false, hasNN_eq_true_iff] at hne
  rw [← Bool.not_eq_true, hasNN_eq_true_iff] at h
  exact h (hne.trans hinf)

theorem hasNN_strip (l : PyStr) (h : hasNN l = false) : hasNN (strip l) = false :=
  hasNN_false_mono _ _ (strip_infix_self l) h

theorem splitOnNN_cons_head_shape (c : Char) (rest : PyStr) :
    (∃ t, splitOnNN (c :: rest) = [] :: t) ∨
      (∃ h' t, splitOnNN (c :: rest) = (c :: h') :: t) := by
  match rest with
  | [] => right; exact ⟨[], [], rfl⟩
  | c2 :: rest' =>
    by_cases hc : c = '\n' ∧ c2 = '\n'
    · left
      obtain ⟨h1, h2⟩ := hc; subst h1; subst h2
      exact ⟨splitOnNN rest', splitOnNN_nn_cons rest'⟩
    · right
      rw [splitOnNN_cons_ne c c2 rest' hc]
      cases hsp : splitOnNN (c2 :: rest') with
      | nil => exact absurd hsp (splitOnNN_ne_nil _)
      | cons h0 t0 => exact ⟨h0, t0, by simp [consHead]⟩

theorem hasNN_mem_splitOnNN (l : PyStr) :
    ∀ p ∈ splitOnNN l, hasNN p = false := by
  match l with
  | [] => simp [splitOnNN, hasNN]
  | [c] => simp [splitOnNN, hasNN]
  | c1 :: c2 :: rest =>
    intro p hp
    have ih := hasNN_mem_splitOnNN (c2 :: rest)
    by_cases hc : c1 = '\n' ∧ c2 = '\n'
    · obtain ⟨h1, h2⟩ := hc
      subst h1; subst h2
      rw [splitOnNN_nn_cons] at hp
      cases hp with
      | head => simp [hasNN]
      | tail _ hp => exact hasNN_mem_splitOnNN rest p hp
    · rw [splitOnNN_cons_ne c1 c2 rest hc] at hp
      cases hsp : splitOnNN (c2 :: rest) with
      | nil => exact absurd hsp (splitOnNN_ne_nil _)
      | cons h0 t0 =>
        rw [hsp] at hp
        simp only [consHead] at hp
        cases hp with
        | head =>
          have hh0 : hasNN h0 = false := by
            apply ih; rw [hsp]; exact List.mem_cons_self _ _
          rcases splitOnNN_cons_head_shape c2 rest with ⟨t, ht⟩ | ⟨h', t, ht⟩
          · rw [hsp] at ht
            have h0nil : h0 = [] := (List.cons.injEq .. ▸ ht).1
            rw [h0nil]
            simp [hasNN]
          · rw [hsp] at ht
            have h0eq : h0 = c2 :: h' := (List.cons.injEq .. ▸ ht).1
            rw [h0eq]
            rw [show hasNN (c1 :: c2 :: h') = if c1 = '\n' ∧ c2 = '\n' then true
              else hasNN (c2 :: h') from rfl, if_neg hc]
            rw [← h0eq]
            exact hh0
        | tail _ hp =>
          apply ih
          rw [hsp]
          exact List.mem_cons_of_mem _ hp

theorem good_of_mem_parags (s : PyStr) : ∀ p ∈ parags s, good p := by
  intro p hp
  rw [parags, List.mem_filter] at hp
  obtain ⟨hmem, hne⟩ := hp
  rw [List.mem_map] at hmem
  obtain ⟨q, hq, hqs⟩ := hmem
  subst hqs
  exact ⟨by simpa using hne, strip_idem q,
    hasNN_strip q (hasNN_mem_splitOnNN s q hq)⟩

theorem good_head_not_space (p : PyStr) (hp : good p) (c : Char)
    (hc : p.head? = some c) : isSpace c = false :=
  strip_head_not_space p c (by rw [hp.2.1]; exact hc)

theorem good_getLast_not_space (p : PyStr) (hp : good p) (c : Char)
    (hc : p.getLast? = some c) : isSpace c = false :=
  strip_getLast_not_space p c (by rw [hp.2.1]; exact hc)

theorem good_getLast_ne_newline (p : PyStr) (hp : good p) :
    p.getLast? ≠ some '\n' := by
  intro h
  have := good_getLast_not_space p hp '\n' h
  simp [isSpace] at this

theorem joinNN_cons_cons (p q : PyStr) (rest : List PyStr) :
    joinNN (p :: q :: rest) = p ++ nn ++ joinNN (q :: rest) := rfl

theorem joinNN_ne_nil (g : List PyStr) (hg : g ≠ [])
    (h : ∀ p ∈ g, p ≠ []) : joinNN g ≠ [] := by
  match g with
  | [] => exact absurd rfl hg
  | [p] =>
    show p ≠ []
    exact h p (by simp)
  | p :: q :: rest =>
    rw [joinNN_cons_cons]
    intro habs
    have := congrArg List.length habs
    simp [nn] at this

theorem joinNN_head? (g : List PyStr) (p : PyStr) (rest : List PyStr)
    (hg : g = p :: rest) (hp : p ≠ []) : (joinNN g).head? = p.head? := by
  subst hg
  match rest with
  | [] => rfl
  | q :: rest' =>
    rw [joinNN_cons_cons]
    rw [show p ++ nn ++ joinNN (q :: rest') = p ++ (nn ++ joinNN (q :: rest')) by simp]
    rw [List.head?_append]
    cases hph : p.head? with
    | none => simp at hph; exact absurd hph hp
    | some c => rfl

theorem joinNN_getLast? (g : List PyStr) (hg : g ≠ [])
    (h : ∀ p ∈ g, p ≠ []) :
    ∃ p ∈ g, (joinNN g).getLast? = p.getLast? := by
  match g with
  | [] => exact absurd rfl hg
  | [p] => exact ⟨p, by simp, rfl⟩
  | p :: q :: rest =>
    obtain ⟨r, hr, hlast⟩ := joinNN_getLast? (q :: rest) (by simp)
      (fun x hx => h x (List.mem_cons_of_mem _ hx))
    refine ⟨r, List.mem_cons_of_mem _ hr, ?_⟩
    rw [joinNN_cons_cons, List.getLast?_append, List.getLast?_append]
    have hrne : r ≠ [] := h r (List.mem_cons_of_mem _ hr)
    have : (joinNN (q :: rest)).getLast? = r.getLast? := hlast
    rw [this]
    cases hrl : r.getLast? with
    | none => simp at hrl; exact absurd hrl hrne
    | some c => rfl

theorem strip_joinNN (g : List PyStr) (hg : g ≠ [])
    (h : ∀ p ∈ g, good p) : strip (joinNN g) = joinNN g := by
  apply strip_eq_self_of
  · intro c hc
    match g with
    | [] => exact absurd rfl hg
    | p :: rest =>
      have hp := h p (by simp)
      rw [joinNN_head? (p :: rest) p rest rfl hp.1] at hc
      exact good_head_not_space p hp c hc
  · intro c hc
    obtain ⟨r, hr, hlast⟩ := joinNN_getLast? g hg (fun x hx => (h x hx).1)
    rw [hlast] at hc
    exact good_getLast_not_space r (h r hr) c hc

theorem joinNN_getLast_ne_newline (g : List PyStr) (hg : g ≠ [])
    (h : ∀ p ∈ g, good p) : (joinNN g).getLast? ≠ some '\n' := by
  obtain ⟨r, hr, hlast⟩ := joinNN_getLast? g hg (fun x hx => (h x hx).1)
  rw [hlast]
  exact good_getLast_ne_newline r (h r hr)

theorem parags_single (p : PyStr) (hp : good p) : parags p = [p] := by
  rw [parags, splitOnNN_of_hasNN_eq_false p hp.2.2]
  simp [hp.2.1, hp.1]

theorem parags_joinNN (g : List PyStr) (hg : g ≠ [])
    (h : ∀ p ∈ g, good p) : parags (joinNN g) = g := by
  match g with
  | [] => exact absurd rfl hg
  | [p] =>
    show parags p = [p]
    exact parags_single p (h p (by simp))
  | p :: q :: rest =>
    have hp := h p (by simp)
    rw [joinNN_cons_cons]
    rw [parags, splitOnNN_append (joinNN (q :: rest)) p.length p (Nat.le_refl _)
      (good_getLast_ne_newline p hp)]
    rw [List.map_append, List.filter_append]
    have h1 : (List.map strip (splitOnNN p)).filter (fun x => x ≠ []) = [p] := by
      rw [splitOnNN_of_hasNN_eq_false p hp.2.2]
      simp [hp.2.1, hp.1]
    rw [h1]
    have h2 := parags_joinNN (q :: rest) (by simp)
      (fun x hx => h x (List.mem_cons_of_mem _ hx))
    rw [parags] at h2
    rw [h2]
    simp

theorem joinNN_append_both (g1 g2 : List PyStr) (h1 : g1 ≠ []) (h2 : g2 ≠ []) :
    joinNN (g1 ++ g2) = joinNN g1 ++ nn ++ joinNN g2 := by
  match g1 with
  | [] => exact absurd rfl h1
  | [q] =>
    match g2 with
    | [] => exact absurd rfl h2
    | r :: rest => rfl
  | q :: r :: rest =>
    rw [show (q :: r :: rest) ++ g2 = q :: ((r :: rest) ++ g2) by simp]
    rw [show (r :: rest) ++ g2 = r :: (rest ++ g2) by simp]
    rw [joinNN_cons_cons, joinNN_cons_cons]
    rw [show r :: (rest ++ g2) = (r :: rest) ++ g2 by simp]
    rw [joinNN_append_both (r :: rest) g2 (by simp) h2]
    simp

theorem joinNN_map_joinNN (pgs : List (List PyStr)) (h : ∀ g ∈ pgs, g ≠ []) :
    joinNN (pgs.map joinNN) = joinNN pgs.flatten := by
  match pgs with
  | [] => rfl
  | [g] => simp [joinNN]
  | g :: g2 :: rest =>
    rw [List.map_cons, List.map_cons, joinNN_cons_cons]
    have ih := joinNN_map_joinNN (g2 :: rest)
      (fun x hx => h x (List.mem_cons_of_mem _ hx))
    rw [List.map_cons] at ih
    rw [ih]
    rw [show (g :: g2 :: rest).flatten = g ++ (g2 :: rest).flatten by simp]
    rw [joinNN_append_both g ((g2 :: rest).flatten) (h g (by simp))]
    have hg2 : g2 ≠ [] := h g2 (by simp)
    cases hx : g2 with
    | nil => exact absurd hx hg2
    | cons a t => simp [hx]

theorem parags_joinNN_groups (pgs : List (List PyStr)) (hne : pgs ≠ [])
    (h : ∀ g ∈ pgs, g ≠ [] ∧ ∀ p ∈ g, good p) :
    parags (joinNN (pgs.map joinNN)) = pgs.flatten := by
  rw [joinNN_map_joinNN pgs (fun g hg => (h g hg).1)]
  have hf : pgs.flatten ≠ [] := by
    intro habs
    match pgs with
    | [] => exact hne rfl
    | g :: rest =>
      rw [List.flatten_cons, List.append_eq_nil] at habs
      exact (h g (by simp)).1 habs.1
  apply parags_joinNN _ hf
  intro p hp
  rw [List.mem_flatten] at hp
  obtain ⟨g, hg, hpg⟩ := hp
  exact (h g hg).2 p hpg

theorem ite_nil_ne_nil (pages : List PyStr) :
    (if pages = [] then ([[]] : List PyStr) else pages) ≠ [] := by
  split <;> simp_all

theorem split_by_paragraphs_ne_nil (text : PyStr) (budget : Nat) :
    split_by_paragraphs text budget ≠ [] := by
  rw [split_by_paragraphs]
  split
  · simp
  · exact ite_nil_ne_nil _

/-- The greedy loop of `split_by_paragraphs` preserves the paragraph
groups: every page in the accumulator is the blank-line join of a
non-empty group of good paragraphs, the current page is the join of a
(possibly empty) group, and the groups concatenate, in order, to the
already consumed paragraphs. -/
theorem sbp_fold_groups (budget : Nat) :
    ∀ (ps : List PyStr) (pgs : List (List PyStr)) (cg : List PyStr),
      (∀ p ∈ ps, good p) →
      (∀ g ∈ pgs, g ≠ [] ∧ ∀ p ∈ g, good p) →
      (∀ p ∈ cg, good p) →
      ∃ (pgs' : List (List PyStr)) (cg' : List PyStr),
        ps.foldl (sbpStep budget) (pgs.map joinNN, joinNN cg) =
          (pgs'.map joinNN, joinNN cg') ∧
        (∀ g ∈ pgs', g ≠ [] ∧ ∀ p ∈ g, good p) ∧
        (∀ p ∈ cg', good p) ∧
        pgs'.flatten ++ cg' = pgs.flatten ++ cg ++ ps := by
  intro ps
  induction ps with
  | nil =>
    intro pgs cg _ hpgs hcg
    exact ⟨pgs, cg, rfl, hpgs, hcg, by simp⟩
  | cons p ps' ih =>
    intro pgs cg hps hpgs hcg
    have hp : good p := hps p (by simp)
    have hps' : ∀ q ∈ ps', good q := fun q hq => hps q (List.mem_cons_of_mem _ hq)
    rw [List.foldl_cons]
    by_cases hcond : joinNN cg ≠ [] ∧ (joinNN cg).length + p.length + 2 > budget
    · -- close the current page, start a new one with p
      have hcg_ne : cg ≠ [] := by
        intro habs; rw [habs] at hcond; exact hcond.1 rfl
      have hstrip : strip (joinNN cg) = joinNN cg := strip_joinNN cg hcg_ne hcg
      have hstep : sbpStep budget (pgs.map joinNN, joinNN cg) p =
          ((pgs ++ [cg]).map joinNN, joinNN [p]) := by
        rw [sbpStep, if_pos hcond]
        simp [hstrip, joinNN]
      rw [hstep]
      obtain ⟨pgs', cg', heq, h1, h2, h3⟩ := ih (pgs ++ [cg]) [p] hps'
        (by
          intro g hg
          rw [List.mem_append] at hg
          cases hg with
          | inl hg => exact hpgs g hg
          | inr hg =>
            rw [List.mem_singleton] at hg
            subst hg
            exact ⟨hcg_ne, hcg⟩)
        (by intro q hq; rw [List.mem_singleton] at hq; subst hq; exact hp)
      refine ⟨pgs', cg', heq, h1, h2, ?_⟩
      rw [h3]
      simp
    · -- append p to the current page
      by_cases hcg_nil : cg = []
      · subst hcg_nil
        have hstep : sbpStep budget (pgs.map joinNN, joinNN []) p =
            (pgs.map joinNN, joinNN [p]) := by
          rw [sbpStep, if_neg hcond]
          simp [joinNN]
        rw [hstep]
        obtain ⟨pgs', cg', heq, h1, h2, h3⟩ := ih pgs [p] hps' hpgs
          (by intro q hq; rw [List.mem_singleton] at hq; subst hq; exact hp)
        refine ⟨pgs', cg', heq, h1, h2, ?_⟩
        rw [h3]
        simp
      · have hjoin_ne : joinNN cg ≠ [] :=
          joinNN_ne_nil cg hcg_nil (fun q hq => (hcg q hq).1)
        have hstep : sbpStep budget (pgs.map joinNN, joinNN cg) p =
            (pgs.map joinNN, joinNN (cg ++ [p])) := by
          rw [sbpStep, if_neg hcond]
          simp only [hjoin_ne, if_pos, ne_eq, not_false_eq_true, if_true]
          rw [joinNN_append_both cg [p] hcg_nil (by simp)]
          rfl
        rw [hstep]
        obtain ⟨pgs', cg', heq, h1, h2, h3⟩ := ih pgs (cg ++ [p]) hps' hpgs
          (by
            intro q hq
            rw [List.mem_append] at hq
            cases hq with
            | inl hq => exact hcg q hq
            | inr hq =>
              rw [List.mem_singleton] at hq
              subst hq
              exact hp)
        refine ⟨pgs', cg', heq, h1, h2, ?_⟩
        rw [h3]
        simp

/-- Joining the pages produced by `split_by_paragraphs` with the
blank-line delimiter recovers the original paragraph sequence. -/
theorem split_by_paragraphs_parags (text : PyStr) (budget : Nat) :
    parags (joinNN (split_by_paragraphs text budget)) = parags text := by
  by_cases htext : text = []
  · subst htext; rfl
  · obtain ⟨pgs', cg', heq, h1, h2, h3⟩ := sbp_fold_groups budget (parags text)
      [] [] (good_of_mem_parags text) (by simp) (by simp)
    simp only [List.flatten_nil, List.nil_append, List.map_nil] at h3 heq
    rw [split_by_paragraphs, if_neg htext]
    dsimp only
    rw [show joinNN ([] : List PyStr) = [] from rfl] at heq
    rw [heq]
    dsimp only
    by_cases hcg' : cg' = []
    · subst hcg'
      rw [show joinNN ([] : List PyStr) = [] from rfl,
        show strip [] = [] from rfl]
      simp only [ne_eq, not_true_eq_false, if_false]
      rw [List.append_nil] at h3
      by_cases hp : pgs' = []
      · subst hp
        rw [← h3]
        rfl
      · have hne : pgs'.map joinNN ≠ [] := by
          intro habs
          exact hp (List.map_eq_nil_iff.mp habs)
        rw [if_neg hne]
        rw [parags_joinNN_groups pgs' hp h1, h3]
    · have hjne : joinNN cg' ≠ [] :=
        joinNN_ne_nil cg' hcg' (fun q hq => (h2 q hq).1)
      have hstrip : strip (joinNN cg') = joinNN cg' := strip_joinNN cg' hcg' h2
      rw [hstrip]
      simp only [hjne, ne_eq, not_false_eq_true, if_true]
      have hpagesne : pgs'.map joinNN ++ [joinNN cg'] ≠ [] := by simp
      rw [if_neg hpagesne]
      have hmaps : pgs'.map joinNN ++ [joinNN cg'] = (pgs' ++ [cg']).map joinNN := by
        simp
      rw [hmaps]
      rw [parags_joinNN_groups (pgs' ++ [cg']) (by simp)
        (by
          intro g hg
          rw [List.mem_append] at hg
          cases hg with
          | inl hg => exact h1 g hg
          | inr hg =>
            rw [List.mem_singleton] at hg
            subst hg
            exact ⟨hcg', h2⟩)]
      rw [List.flatten_append]
      simp [h3]

/-- Claim C6: for every body and every budget, a body consisting of a
single paragraph whose length exceeds the budget yields exactly one
page from `split_by_paragraphs`, containing that whole paragraph,
untruncated (never split mid-paragraph). -/
theorem C6_single_long_paragraph (body : PyStr) (budget : Nat) (p : PyStr)
    (hp : parags body = [p]) (hlong : p.length > budget) :
    split_by_paragraphs body budget = [p] := by
  have hgood : good p := good_of_mem_parags body p (by rw [hp]; simp)
  have hbody_ne : body ≠ [] := by
    intro habs
    rw [habs] at hp
    simp [parags, splitOnNN, strip] at hp
  rw [split_by_paragraphs, if_neg hbody_ne]
  dsimp only
  rw [hp]
  have hstep : sbpStep budget (([] : List PyStr), ([] : PyStr)) p = ([], p) := by
    rw [sbpStep]
    rw [if_neg (by simp)]
    simp
  rw [List.foldl_cons, hstep, List.foldl_nil]
  dsimp only
  rw [hgood.2.1, if_pos hgood.1]
  simp [hgood.1]

/-- Claim C6 witness: a concrete one-paragraph body of length 6 with
budget 3 is emitted whole as a single page. -/
theorem C6_witness :
    parags (String.data "abcdef") = [String.data "abcdef"] ∧
    (String.data "abcdef").length > 3 ∧
    split_by_paragraphs (String.data "abcdef") 3 = [String.data "abcdef"] :=
  ⟨by decide, by decide,
    C6_single_long_paragraph (String.data "abcdef") 3 (String.data "abcdef")
      (by decide) (by decide)⟩

/-- Claim C7: for every body and every budget, `split_by_paragraphs`
returns a non-empty sequence of pages, and joining all pages with the
blank-line delimiter recovers the body's original paragraph sequence
(no paragraph altered, dropped, or reordered). -/
theorem C7_pagination_round_trip (B : PyStr) (budget : Nat) :
    split_by_paragraphs B budget ≠ [] ∧
    parags (joinNN (split_by_paragraphs B budget)) = parags B :=
  ⟨split_by_paragraphs_ne_nil B budget, split_by_paragraphs_parags B budget⟩

theorem strip_eq_self_of_all (l : PyStr) (h : ∀ x ∈ l, isSpace x = false) :
    strip l = l := by
  apply strip_eq_self_of
  · intro c hc
    exact h c (List.mem_of_mem_head? hc)
  · intro c hc
    exact h c (List.mem_of_mem_getLast? hc)

theorem good_replicate (n : Nat) (c : Char) (hn : n ≠ 0)
    (hc : isSpace c = false) : good (List.replicate n c) := by
  refine ⟨by simp [hn], ?_, ?_⟩
  · apply strip_eq_self_of_all
    intro x hx
    rw [List.eq_of_mem_replicate hx]
    exact hc
  · by_contra habs
    rw [Bool.not_eq_false, hasNN_eq_true_iff] at habs
    have hmem : '\n' ∈ List.replicate n c := habs.subset (by simp [nn])
    have heq := List.eq_of_mem_replicate hmem
    rw [← heq] at hc
    simp [isSpace] at hc

theorem c3_good1 : good c3p1 := good_replicate 800 'a' (by decide) (by decide)

theorem c3_good2 : good c3p2 := good_replicate 800 'b' (by decide) (by decide)

theorem c3_good3 : good c3p3 := good_replicate 696 'c' (by decide) (by decide)

theorem c3_parags : parags c3body = [c3p1, c3p2, c3p3] := by
  apply parags_joinNN _ (by simp)
  intro p hp
  simp only [List.mem_cons, List.mem_singleton, List.not_mem_nil, or_false] at hp
  rcases hp with h | h | h
  · rw [h]; exact c3_good1
  · rw [h]; exact c3_good2
  · rw [h]; exact c3_good3

theorem c3_split : split_by_paragraphs c3body 1100 = [c3p1, c3p2, c3p3] := by
  have hbody_ne : c3body ≠ [] := by
    intro habs
    have hlen := congrArg List.length habs
    rw [c3body, joinNN_cons_cons] at hlen
    simp [nn] at hlen
  rw [split_by_paragraphs, if_neg hbody_ne]
  dsimp only
  rw [c3_parags]
  rw [List.foldl_cons]
  have h1 : sbpStep 1100 (([] : List PyStr), ([] : PyStr)) c3p1 = ([], c3p1) := by
    rw [sbpStep, if_neg (by simp)]
    simp
  rw [h1, List.foldl_cons]
  have h2 : sbpStep 1100 (([] : List PyStr), c3p1) c3p2 = ([c3p1], c3p2) := by
    rw [sbpStep, if_pos ?_]
    · rw [show strip (([] : List PyStr), c3p1).2 = c3p1 from c3_good1.2.1]
      simp
    · refine ⟨c3_good1.1, ?_⟩
      dsimp only
      rw [c3p1, c3p2, List.length_replicate, List.length_replicate]
      decide
  rw [h2, List.foldl_cons]
  have h3 : sbpStep 1100 ([c3p1], c3p2) c3p3 = ([c3p1, c3p2], c3p3) := by
    rw [sbpStep, if_pos ?_]
    · rw [show strip ([c3p1], c3p2).2 = c3p2 from c3_good2.2.1]
      simp
    · refine ⟨c3_good2.1, ?_⟩
      dsimp only
      rw [c3p2, c3p3, List.length_replicate, List.length_replicate]
      decide
  rw [h3, List.foldl_nil]
  dsimp only
  rw [show strip c3p3 = c3p3 from c3_good3.2.1, if_pos c3_good3.1]
  simp

/-- Claim C3 counterexample: for the concrete scenario body of total
length 2300 made of 3 paragraphs of roughly 800 characters each
(800, 800, 696), pagination with budget 1100 produces 3 pages, not 2:
any two ~800-character paragraphs already exceed the 1100 budget, so
the claimed 2-page outcome is impossible. -/
theorem C3_counterexample :
    c3body.length = 2300 ∧ (parags c3body).length = 3 ∧
    (build_pages (String.data "T") c3body 1100
      (String.data "(CONTD...)")).length ≠ 2 := by
  refine ⟨?_, ?_, ?_⟩
  · rw [c3body, joinNN_cons_cons, joinNN_cons_cons]
    show (c3p1 ++ nn ++ (c3p2 ++ nn ++ joinNN [c3p3])).length = 2300
    rw [show joinNN [c3p3] = c3p3 from rfl]
    simp only [List.length_append, c3p1, c3p2, c3p3, nn, List.length_replicate,
      List.length_cons, List.length_nil]
  · rw [c3_parags]; rfl
  · rw [build_pages, c3_split]
    simp

/-- Claim C3 amended: the scenario body (2300 characters, three
paragraphs of roughly 800 characters, budget 1100) produces exactly 3
pages, one per paragraph, and both continuation pages (all pages after
the first) carry the continuation suffix appended to the title. -/
theorem C3_amended :
    build_pages (String.data "T") c3body 1100 (String.data "(CONTD...)") =
      [⟨String.data "T", c3p1⟩,
       ⟨String.data "T (CONTD...)", c3p2⟩,
       ⟨String.data "T (CONTD...)", c3p3⟩] := by
  rw [build_pages, c3_split]
  rfl

/-- Claim C8: for every body, when the box width or the box height is
unknown (None), `split_by_font_metrics` returns exactly the result of
the Contract A heuristic `split_by_paragraphs` on that body (with
its default 1100-character budget), and for empty input it returns the
single empty page, just as Contract A does. -/
theorem C8_metrics_fallback (text : PyStr) (measure : PyStr → Nat)
    (roughWrap : PyStr → List PyStr) (ascent descent : Nat)
    (bw bh : Option Nat) :
    (bw = none ∨ bh = none →
      split_by_font_metrics text measure roughWrap ascent descent bw bh =
        split_by_paragraphs text 1100) ∧
    (text = [] →
      split_by_font_metrics text measure roughWrap ascent descent bw bh
          = [[]] ∧
        split_by_paragraphs text 1100 = [[]]) := by
  constructor
  · intro h
    rw [split_by_font_metrics.eq_def]
    by_cases htext : text = []
    · rw [if_pos htext, htext]
      rfl
    · rw [if_neg htext]
      rcases h with h | h
      · subst h
        cases bh <;> rfl
      · subst h
        cases bw <;> rfl
  · intro htext
    subst htext
    exact ⟨by rw [split_by_font_metrics.eq_def]; rfl, rfl⟩

/-- Claim C8 witness: with an unknown box width the metric contract
coincides with the heuristic on a concrete body, and empty input gives
the single empty page. -/
theorem C8_witness :
    split_by_font_metrics (String.data "x") (fun _ => 0) (fun p => [p]) 0 0
        none (some 5) =
      split_by_paragraphs (String.data "x") 1100 ∧
    split_by_font_metrics ([] : PyStr) (fun _ => 0) (fun p => [p]) 0 0
        (some 3) (some 5) = [[]] :=
  ⟨(C8_metrics_fallback (String.data "x") (fun _ => 0) (fun p => [p]) 0 0
      none (some 5)).1 (Or.inl rfl),
    ((C8_metrics_fallback ([] : PyStr) (fun _ => 0) (fun p => [p]) 0 0
      (some 3) (some 5)).2 rfl).1⟩

theorem strip_append_nn (body : PyStr) (hne : body ≠ [])
    (hs : strip body = body) : strip (body ++ nn) = body := by
  rw [strip_eq_self_iff] at hs
  obtain ⟨hd, hr⟩ := hs
  rw [strip]
  have h1 : (body ++ nn).dropWhile isSpace = body ++ nn := by
    rw [List.dropWhile_eq_self_iff] at hd ⊢
    intro hl
    cases body with
    | nil => exact absurd rfl hne
    | cons a t =>
      have := hd (by simp)
      simpa using this
  rw [h1]
  rw [show body ++ nn = (body ++ ['\n']) ++ ['\n'] by simp [nn]]
  rw [List.rdropWhile_concat_pos isSpace (body ++ ['\n']) '\n' (by decide)]
  rw [List.rdropWhile_concat_pos isSpace body '\n' (by decide)]
  exact hr

/-- Claim C4: for every stripped pre-OCR body and every OCR text T,
the merge rule of app.py lines 198-200 gives: a body of at least 20
characters is returned unchanged (OCR discarded); a non-empty body
shorter than 20 characters becomes (body + blank line + T) stripped;
an empty body becomes T. -/
theorem C4_ocr_merge (body T : PyStr) (hbody : strip body = body) :
    (20 ≤ body.length → merge_ocr_into_body body T = body) ∧
    (body ≠ [] → body.length < 20 →
      merge_ocr_into_body body T = strip (body ++ nn ++ T)) ∧
    (body = [] → merge_ocr_into_body body T = T) := by
  refine ⟨?_, ?_, ?_⟩
  · intro hlen
    rw [merge_ocr_into_body, if_neg]
    intro ⟨h1, _⟩
    cases h1 with
    | inl h1 => rw [h1] at hlen; simp at hlen
    | inr h1 => omega
  · intro hne hlen
    by_cases hT : T = []
    · subst hT
      rw [merge_ocr_into_body, if_neg (by simp)]
      rw [List.append_nil]
      exact (strip_append_nn body hne hbody).symm
    · rw [merge_ocr_into_body, if_pos ⟨Or.inr hlen, hT⟩, if_pos hne]
  · intro hnil
    subst hnil
    by_cases hT : T = []
    · subst hT
      rfl
    · rw [merge_ocr_into_body, if_pos ⟨Or.inl rfl, hT⟩, if_neg (by simp)]

/-- Claim C4 witness: concrete checks of all three merge cases. -/
theorem C4_witness :
    strip (String.data "hi") = String.data "hi" ∧
    merge_ocr_into_body (String.data "hi") (String.data "found by ocr") =
      strip (String.data "hi" ++ nn ++ String.data "found by ocr") ∧
    merge_ocr_into_body ([] : PyStr) (String.data "found by ocr") =
      String.data "found by ocr" ∧
    merge_ocr_into_body (String.data "this body is long enough!")
        (String.data "noise") =
      String.data "this body is long enough!" :=
  ⟨by decide,
    (C4_ocr_merge (String.data "hi") (String.data "found by ocr")
      (by decide)).2.1 (by decide) (by decide),
    (C4_ocr_merge ([] : PyStr) (String.data "found by ocr") (by decide)).2.2 rfl,
    (C4_ocr_merge (String.data "this body is long enough!")
      (String.data "noise") (by decide)).1 (by decide)⟩

/-- Claim C5: when the primary backend is the cloud backend
(google_vision) and it raises, `ocr_image` invokes the local tesseract
fallback exactly once; if the fallback succeeds its result is
returned, and if the fallback also fails the error surfaced to the
caller is the original cloud error, not the fallback's. -/
theorem C5_cloud_fallback (e : PyStr) (tess : Except PyStr OcrResult) :
    ((ocr_image (.error e) tess (String.data "google_vision")).2.count
      .tesseract = 1) ∧
    (∀ f, tess = .error f →
      (ocr_image (.error e) tess (String.data "google_vision")).1 =
        .error e) ∧
    (∀ r, tess = .ok r →
      (ocr_image (.error e) tess (String.data "google_vision")).1 =
        .ok r) := by
  refine ⟨?_, ?_, ?_⟩
  · cases tess <;> rfl
  · intro f hf
    subst hf
    rfl
  · intro r hr
    subst hr
    rfl

/-- Claim C5 witness: with a concrete cloud error and a concrete
failing fallback, tesseract is called exactly once and the surfaced
error is the cloud one. -/
theorem C5_witness :
    (ocr_image (.error (String.data "cloud auth failed"))
      (.error (String.data "tesseract missing"))
      (String.data "google_vision")).2.count .tesseract = 1 ∧
    (ocr_image (.error (String.data "cloud auth failed"))
      (.error (String.data "tesseract missing"))
      (String.data "google_vision")).1 =
      .error (String.data "cloud auth failed") :=
  ⟨(C5_cloud_fallback (String.data "cloud auth failed")
      (.error (String.data "tesseract missing"))).1,
    (C5_cloud_fallback (String.data "cloud auth failed")
      (.error (String.data "tesseract missing"))).2.1
      (String.data "tesseract missing") rfl⟩

theorem extract_fold_title (shapes : List Shape) :
    ∀ st : ExtractState,
      (shapes.foldl extract_shape_step st).title_text =
        match last_title_ph shapes with
        | some sh => strip sh.text
        | none => st.title_text := by
  induction shapes with
  | nil => intro st; rfl
  | cons sh rest ih =>
    intro st
    rw [List.foldl_cons, ih]
    rw [last_title_ph, last_title_ph, List.reverse_cons, List.find?_append]
    cases hfind : rest.reverse.find? isTitlePh with
    | some t => rfl
    | none =>
      rw [List.find?_singleton]
      by_cases hph : isTitlePh sh
      · rw [if_pos hph]
        show (extract_shape_step st sh).title_text = strip sh.text
        rw [extract_shape_step]
        simp [hph]
      · rw [if_neg hph]
        show (extract_shape_step st sh).title_text = st.title_text
        rw [extract_shape_step]
        simp [hph]

theorem slide_label_ne_nil (idx : Nat) : slide_label idx ≠ [] := by
  intro habs
  have hlen := congrArg List.length habs
  rw [slide_label, List.length_append] at hlen
  rw [show (String.data "Slide ").length = 6 from rfl] at hlen
  simp at hlen

theorem extract_slide_title_eq (idx : Nat) (shapes : List Shape) :
    (extract_slide idx shapes).title_text =
      (match last_title_ph shapes with
       | some sh => if strip sh.text ≠ [] then strip sh.text else slide_label idx
       | none => slide_label idx) := by
  rw [extract_slide]
  dsimp only
  rw [extract_fold_title shapes ⟨[], [], [], []⟩]
  cases h : last_title_ph shapes with
  | none => simp
  | some sh =>
    by_cases hs : strip sh.text = []
    · simp [hs]
    · simp [hs]

theorem extract_slide_title_ne_nil (idx : Nat) (shapes : List Shape) :
    (extract_slide idx shapes).title_text ≠ [] := by
  rw [extract_slide_title_eq]
  cases h : last_title_ph shapes with
  | none => exact slide_label_ne_nil idx
  | some sh =>
    by_cases hs : strip sh.text = []
    · simp [hs, slide_label_ne_nil idx]
    · simp [hs]

/-- Claim C10: for every slide, the record produced by
extract_text_shapes has a non-empty title_text: the (last) title
placeholder's stripped text when that is non-empty, and otherwise the
synthesized "Slide (index+1)"; consequently the resolver in
analyze_and_preview always adopts it, and the downstream
first-text-run title heuristic is never reached. -/
theorem C10_extracted_title_invariant (idx : Nat) (shapes : List Shape)
    (ocr : PyStr) :
    (extract_slide idx shapes).title_text ≠ [] ∧
    (extract_slide idx shapes).title_text =
      (match last_title_ph shapes with
       | some sh => if strip sh.text ≠ [] then strip sh.text else slide_label idx
       | none => slide_label idx) ∧
    (analyze_slide (extract_slide idx shapes) ocr).1 =
      (extract_slide idx shapes).title_text := by
  refine ⟨extract_slide_title_ne_nil idx shapes,
    extract_slide_title_eq idx shapes, ?_⟩
  rw [analyze_slide]
  rw [if_pos (extract_slide_title_ne_nil idx shapes)]

/-- Claim C2 counterexample: on a slide with no title placeholder and
one multi-line text run "Hello\nWorld", the resolver's title is the
extractor's synthesized "Slide 1" and not the run's first line
"Hello", and the body contains the title-bearing run in full — its
first line is not excluded (the claimed remainder "World" is not the
first body paragraph). -/
theorem C2_counterexample :
    (analyze_slide (extract_slide 0 [helloShape]) []).1 =
      String.data "Slide 1" ∧
    (analyze_slide (extract_slide 0 [helloShape]) []).1 ≠
      String.data "Hello" ∧
    (analyze_slide (extract_slide 0 [helloShape]) []).2 =
      String.data "Hello\nWorld" := by
  refine ⟨by decide, by decide, by decide⟩

theorem text_shapes_mono (shapes : List Shape) :
    ∀ (st : ExtractState) (x : TextShape), x ∈ st.text_shapes →
      x ∈ (shapes.foldl extract_shape_step st).text_shapes := by
  induction shapes with
  | nil => intro st x hx; exact hx
  | cons sh rest ih =>
    intro st x hx
    rw [List.foldl_cons]
    apply ih
    rw [extract_shape_step]
    dsimp only
    split
    · exact List.mem_append_left _ hx
    · exact hx

theorem mem_text_shapes_of_fold (shapes : List Shape) :
    ∀ (st : ExtractState) (sh : Shape), sh ∈ shapes →
      sh.has_text_frame = true → strip sh.text ≠ [] →
      (⟨strip sh.text, sh.shape_type⟩ : TextShape) ∈
        (shapes.foldl extract_shape_step st).text_shapes := by
  induction shapes with
  | nil => intro st sh h; cases h
  | cons a rest ih =>
    intro st sh hmem htf htext
    rw [List.foldl_cons]
    rcases List.mem_cons.mp hmem with h | h
    · subst h
      apply text_shapes_mono
      rw [extract_shape_step]
      dsimp only
      rw [if_pos ⟨by simp [htf], htext⟩]
      exact List.mem_append_right _ (by simp)
    · exact ih _ sh h htf htext

theorem merge_ocr_empty (body : PyStr) : merge_ocr_into_body body [] = body := by
  rw [merge_ocr_into_body, if_neg]
  intro ⟨_, h⟩
  exact h rfl

theorem analyze_slide_of_title (meta : SlideMeta) (ocr : PyStr)
    (hne : meta.title_text ≠ []) :
    analyze_slide meta ocr =
      (meta.title_text,
        merge_ocr_into_body
          (if meta.text_shapes ≠ [] then
            (let parts := meta.text_shapes.foldl (fun acc s =>
                let txt := strip s.text
                if txt = [] then acc
                else if meta.title_text ≠ [] ∧ txt = meta.title_text then acc
                else acc ++ [txt]) []
             if parts ≠ [] then strip (joinNN parts) else [])
          else []) ocr) := by
  rw [analyze_slide, if_pos hne]

/-- Claim C2 amended: on a slide with no title placeholder and a
single text run whose stripped text is non-blank and differs from the
synthesized title, the resolver adopts the extractor's synthesized
title "Slide (index+1)" — never the run's first line — and the body is
that run's full stripped text: the title-bearing run's first line is
not removed from the body. -/
theorem C2_amended (idx : Nat) (shapes : List Shape) (s : TextShape)
    (hnoph : last_title_ph shapes = none)
    (hruns : (extract_slide idx shapes).text_shapes = [s])
    (htext : strip s.text ≠ [])
    (hdiff : strip s.text ≠ slide_label idx) :
    (analyze_slide (extract_slide idx shapes) []).1 = slide_label idx ∧
    (analyze_slide (extract_slide idx shapes) []).2 = strip s.text := by
  have htitle : (extract_slide idx shapes).title_text = slide_label idx := by
    rw [extract_slide_title_eq, hnoph]
  have hne := extract_slide_title_ne_nil idx shapes
  have hdiff2 : strip s.text ≠ (extract_slide idx shapes).title_text := by
    rw [htitle]; exact hdiff
  rw [analyze_slide_of_title _ _ hne]
  rw [hruns]
  simp [htext, hdiff2, merge_ocr_empty, strip_idem, joinNN, htitle]
  rw [if_pos (show ¬slide_label idx = [] → ¬strip s.text = slide_label idx from
    fun _ => hdiff)]
  rw [if_neg (show ¬(¬slide_label idx = [] ∧ strip s.text = slide_label idx) from
    fun hx => hdiff hx.2)]
  rw [show joinNN [strip s.text] = strip s.text from rfl]
  exact strip_idem s.text

/-- Claim C2 witness: the concrete slide with one run "Hello\nWorld"
and no title placeholder satisfies the amended statement's hypotheses,
and gets title "Slide 1" and body "Hello\nWorld". -/
theorem C2_witness :
    last_title_ph [helloShape] = none ∧
    (extract_slide 0 [helloShape]).text_shapes =
      [⟨String.data "Hello\nWorld", 17⟩] ∧
    (analyze_slide (extract_slide 0 [helloShape]) []).1 = slide_label 0 ∧
    (analyze_slide (extract_slide 0 [helloShape]) []).2 =
      strip (String.data "Hello\nWorld") :=
  ⟨by decide, by decide,
    (C2_amended 0 [helloShape] ⟨String.data "Hello\nWorld", 17⟩
      (by decide) (by decide) (by decide) (by decide)).1,
    (C2_amended 0 [helloShape] ⟨String.data "Hello\nWorld", 17⟩
      (by decide) (by decide) (by decide) (by decide)).2⟩

/-- Claim C9 counterexample: a slide whose only shape is a footer
placeholder with the text "Confidential"; the extractor includes it
among the text runs (pptx_reader.py lines 49-60 apply no
footer/date/slide-number exclusion), contradicting the claim that such
placeholders are never extracted as text runs. -/
theorem C9_counterexample :
    (extract_slide 0 [footerShape]).text_shapes =
      [⟨String.data "Confidential", 14⟩] := by
  decide

/-- Claim C9 amended: every shape with a text frame and non-blank
stripped text becomes a text run, regardless of its placeholder kind —
footer, date and slide-number placeholders included; the extractor
applies no placeholder-kind exclusion to text runs. -/
theorem C9_amended (idx : Nat) (shapes : List Shape) (sh : Shape)
    (hmem : sh ∈ shapes) (htf : sh.has_text_frame = true)
    (htext : strip sh.text ≠ []) :
    (⟨strip sh.text, sh.shape_type⟩ : TextShape) ∈
      (extract_slide idx shapes).text_shapes := by
  rw [extract_slide]
  exact mem_text_shapes_of_fold shapes ⟨[], [], [], []⟩ sh hmem htf htext

/-- Claim C9 witness: the footer placeholder's text appears among the
extracted text runs of its slide. -/
theorem C9_witness :
    footerShape ∈ [footerShape] ∧
    footerShape.has_text_frame = true ∧
    strip footerShape.text ≠ [] ∧
    (⟨strip footerShape.text, footerShape.shape_type⟩ : TextShape) ∈
      (extract_slide 0 [footerShape]).text_shapes :=
  ⟨by decide, by decide, by decide,
    C9_amended 0 [footerShape] footerShape (by decide) (by decide) (by decide)⟩

theorem no_grid_append (l : List RenderedShape) (x : RenderedShape)
    (hl : l.all (fun sh => !(isGrid sh)) = true) (hx : isGrid x = false) :
    (l ++ [x]).all (fun sh => !(isGrid sh)) = true := by
  rw [List.all_append]
  simp [hl, hx]

theorem fill_fold_no_grid (t b : PyStr) (phs : List PhType) :
    ∀ acc : List RenderedShape × Bool × Bool,
      acc.1.all (fun sh => !(isGrid sh)) = true →
      ((phs.foldl (fill_ph_step t b) acc).1).all
        (fun sh => !(isGrid sh)) = true := by
  induction phs with
  | nil => intro acc h; exact h
  | cons p rest ih =>
    intro acc h
    rw [List.foldl_cons]
    apply ih
    cases p <;> rw [fill_ph_step]
    case title => split <;> exact no_grid_append _ _ h rfl
    case centerTitle => split <;> exact no_grid_append _ _ h rfl
    case body => split <;> exact no_grid_append _ _ h rfl
    case content => split <;> exact no_grid_append _ _ h rfl
    case other => exact no_grid_append _ _ h rfl

theorem fill_placeholders_no_grid (phs : List PhType) (t b : PyStr) :
    (fill_placeholders_model phs t b).all (fun sh => !(isGrid sh)) = true := by
  rw [fill_placeholders_model]
  have h := fill_fold_no_grid t b phs ([], false, false) rfl
  split
  · split
    · exact no_grid_append _ _ (no_grid_append _ _ h rfl) rfl
    · exact no_grid_append _ _ h rfl
  · split
    · exact no_grid_append _ _ h rfl
    · exact h

/-- Claim C1 amended: for every template and page record list, the
Template Filler renders title and body text shapes only: no output
slide contains a grid shape. `fill_template_with_pages` accepts no
table records, and tables are never rendered. -/
theorem C1_amended (template : Option (List (List PhType)))
    (pages : List Page) :
    (fill_template_with_pages template pages).all
      (fun slide => slide.all (fun sh => !(isGrid sh))) = true := by
  rw [fill_template_with_pages.eq_def]
  cases template with
  | none =>
    rw [List.all_eq_true]
    intro slide hslide
    rw [List.mem_map] at hslide
    obtain ⟨p, _, hp⟩ := hslide
    rw [← hp]
    exact fill_placeholders_no_grid [] p.title p.body
  | some layouts =>
    rw [List.all_eq_true]
    intro slide hslide
    rw [List.mem_map] at hslide
    obtain ⟨p, _, hp⟩ := hslide
    rw [← hp]
    exact fill_placeholders_no_grid _ p.title p.body

/-- Claim C1 counterexample: for a concrete page record list (the page
of a slide that carried the TableRecord with header ["A","B"] and rows
[["A","B"],["1","2"]]), the filled output contains zero grid shapes —
in particular no 2-row by 2-column grid with those cell texts — since
the filler takes no table input and never creates a table shape. -/
theorem C1_counterexample :
    ((fill_template_with_pages none
      [⟨String.data "Results", String.data "A table follows"⟩]).flatten.countP
        isGrid) = 0 ∧
    ((fill_template_with_pages
      (some [[PhType.title, PhType.body]])
      [⟨String.data "Results", String.data "A table follows"⟩]).flatten.countP
        isGrid) = 0 := by
  refine ⟨by decide, by decide⟩

end PowerPpt
